import Mathlib

/-!
Verification of the credential/identity resolution and header-injection
pipeline of the amazon_ads_mcp repository, together with its auxiliary
utilities (text truncation, session store, logging masking, HTTP client
timeout configuration).

Pure Python functions present in the repository are embedded as Lean
functions over explicit data; the auth core (AuthManager / token cache /
authenticated client), whose source is not part of the excerpt, is
modelled from the specification text and marked as such in the doc
comments of the corresponding definitions.
-/

namespace AmazonAdsMcp

/-! ## Text truncation (src/src/amazon_ads_mcp/server/openapi_utils.py) -/

/-- Model of the literal `tail` string in `truncate_text`
(openapi_utils.py line 24).  In the source file the bytes of that literal
decode to the three characters U+00E2, U+20AC, U+00A6, so the marker has
Python length 3. -/
def truncationTail : List Char := ['â', '€', '¦']

/-- Model of `truncate_text(text, max_len)` from openapi_utils.py lines
10-25.  Python strings are modelled as lists of code points; the
`Optional[str]` argument covers the non-string input `None`, which the
`isinstance` guard returns unchanged.  Slicing `text[: max(0, max_len - len(tail))]`
is `List.take` of the clamped index. -/
def truncate_text (text : Option (List Char)) (max_len : Int) : Option (List Char) :=
  match text with
  | none => none
  | some s =>
    if (s.length : Int) ≤ max_len then some s
    else some (s.take (max 0 (max_len - (truncationTail.length : Int))).toNat ++ truncationTail)

/-! ## Session store (src/src/amazon_ads_mcp/middleware/session.py) -/

/-- Model of `SessionData` (session.py lines 36-61); timestamps are whole
seconds on an absolute integer clock. -/
structure SessionData where
  session_id : String
  created_at : Int
  last_accessed : Int
deriving DecidableEq, Repr

/-- Model of `SessionData.is_expired` (session.py lines 63-73): the age in
seconds since `last_accessed` is strictly greater than `max_age_seconds`. -/
def SessionData.is_expired (s : SessionData) (now : Int) (max_age_seconds : Int) : Bool :=
  max_age_seconds < now - s.last_accessed

/-- Model of `SessionData.refresh` (session.py lines 75-77). -/
def SessionData.refresh (s : SessionData) (now : Int) : SessionData :=
  { s with last_accessed := now }

/-- Model of `SessionStore` (session.py lines 80-108): the `_sessions`
dict is a partial map from session id to `SessionData`, and `max_age` is
the configured maximum age in seconds. -/
structure SessionStore where
  sessions : String → Option SessionData
  max_age : Int

/-- Model of `SessionStore.get_session` (session.py lines 201-225):
missing id returns `None`; an expired entry is deleted and `None` is
returned; otherwise `last_accessed` is refreshed in place and the session
is returned.  Disk persistence is a side effect outside the data model. -/
def SessionStore.get_session (st : SessionStore) (now : Int) (sid : String) :
    Option SessionData × SessionStore :=
  match st.sessions sid with
  | none => (none, st)
  | some s =>
    if s.is_expired now st.max_age then
      (none, { st with sessions := fun k => if k = sid then none else st.sessions k })
    else
      let s2 := s.refresh now
      (some s2, { st with sessions := fun k => if k = sid then some s2 else st.sessions k })

/-! ## Session-aware logging (src/src/amazon_ads_mcp/utils/session_logging.py) -/

/-- Decides whether the list `n` is an initial segment of the list `h`;
used to model the Python substring test. -/
def beginsWith : List Char → List Char → Bool
  | [], _ => true
  | _ :: _, [] => false
  | a :: as, b :: bs => a = b && beginsWith as bs

/-- Decides whether the list `n` occurs contiguously inside the list `h`;
used to model the Python substring test. -/
def hasSubList (n : List Char) : List Char → Bool
  | [] => n.isEmpty
  | b :: bs => beginsWith n (b :: bs) || hasSubList n bs

/-- Model of the Python expression `needle in haystack` on strings. -/
def containsSub (needle haystack : String) : Bool :=
  hasSubList needle.toList haystack.toList

/-- Code points of `s` lowercased; models the Python `str.lower()` method (which
coincides with per-character ASCII lowering on the header and kwarg names
involved). -/
def lowerChars (s : String) : List Char :=
  s.toList.map Char.toLower

/-- Model of the key test `"token" in key.lower() or "secret" in key.lower()`
in `log_auth_flow` (session_logging.py line 186). -/
def isSecretKey (k : String) : Bool :=
  hasSubList "token".toList (lowerChars k) || hasSubList "secret".toList (lowerChars k)

/-- Model of the kwarg masking of `log_auth_flow` (session_logging.py
lines 184-190): secret-named values become the literal mask, other long
string values keep only a 20-character preview. -/
def maskAuthValue (k v : String) : String :=
  if isSecretKey k then "***MASKED***"
  else if 20 < v.length then v.take 20 ++ "..." else v

/-- Model of the 8-character id preview of `log_auth_flow` line 177 and
`log_session_event` line 220. -/
def maskIdPreview (s : String) : String :=
  if 8 < s.length then s.take 8 ++ "..." else s

/-- Model of the message string emitted by `log_auth_flow`
(session_logging.py lines 145-193).  Keyword arguments are modelled as an
ordered association list of string values; `identity_id` and
`provider_type` are optional, and the Python truthiness test also skips the
empty string. -/
def logAuthFlowMsg (stage : String) (identity_id provider_type : Option String)
    (kwargs : List (String × String)) : String :=
  let parts1 := match identity_id with
    | some i => if i = "" then [] else ["identity=" ++ maskIdPreview i]
    | none => []
  let parts2 := match provider_type with
    | some p => if p = "" then [] else ["provider=" ++ p]
    | none => []
  let parts3 := kwargs.map (fun kv => kv.1 ++ "=" ++ maskAuthValue kv.1 kv.2)
  "AUTH_FLOW [" ++ stage ++ "] " ++ String.intercalate " " (parts1 ++ parts2 ++ parts3)

/-- Model of the message string emitted by `log_session_event`
(session_logging.py lines 196-230).  Only the `session_id` argument is
masked; the keyword arguments are appended verbatim as `key=value`. -/
def logSessionEventMsg (event : String) (session_id : Option String)
    (kwargs : List (String × String)) : String :=
  let masked := match session_id with
    | some s => if s = "" then "unknown" else maskIdPreview s
    | none => "unknown"
  let parts := ("session=" ++ masked) :: kwargs.map (fun kv => kv.1 ++ "=" ++ kv.2)
  "SESSION [" ++ event ++ "] " ++ String.intercalate " " parts

/-! ## Credential data model and token cache

The auth core (`AuthManager`, `OpenbridgeAuth`, `AmazonAdsAuth`, the token
cache) is referenced throughout the scripts of the repository but its source
files are not part of the excerpt, so the definitions below are modelled
from the specification text (spec.md sections 3, 4.1, 4.3 and 5). -/

/-- Modelled from the spec: the `Credentials` record of spec.md section 3
(`identity_id`, opaque `access_token`, absolute `expires_at` timestamp in
seconds).  `base_url` and precomputed headers are carried by the router
and header-injection models below. -/
structure Credentials where
  identity_id : String
  access_token : String
  expires_at : Nat
deriving DecidableEq, Repr

/-- Modelled from the spec: the error taxonomy of spec.md section 7 that
a mint can fail with (`AuthError` on upstream 4xx rejection,
`TransientNetworkError` on connection failure, timeout or 5xx). -/
inductive MintError where
  | authError (status : Nat)
  | transientNetworkError
deriving DecidableEq, Repr

/-- Modelled from the spec: the token-cache entry for one identity
(spec.md section 4.3); `none` is the `EMPTY` state. -/
structure CacheState where
  entry : Option Credentials
deriving DecidableEq, Repr

/-- Modelled from the spec: `get(identity)` of the Token Cache (spec.md
section 4.3, surfaced as `get_active_credentials()`), for a single
identity.  The provider is a function of the mint time; the result
carries the returned value, the updated cache entry and the number of
provider calls made.  The expiry check is `now + margin >= expires_at`
(refresh) versus `expires_at > now + margin` (still fresh), never exact
equality, as spec.md section 4.3 prescribes. -/
def tokenCacheGet (provider : Nat → Except MintError Credentials) (margin : Nat)
    (now : Nat) (st : CacheState) : Except MintError Credentials × CacheState × Nat :=
  match st.entry with
  | some c =>
    if now + margin < c.expires_at then (.ok c, st, 0)
    else
      match provider now with
      | .ok c2 => (.ok c2, ⟨some c2⟩, 1)
      | .error e => (.error e, st, 1)
  | none =>
    match provider now with
    | .ok c2 => (.ok c2, ⟨some c2⟩, 1)
    | .error e => (.error e, st, 1)

/-! ## Single-flight token cache as an event system

Modelled from the spec: sections 4.3 and 5 describe cooperative
concurrency in which every mint is a suspension point.  Concurrent
execution is embedded as an interleaving of atomic events on a shared
cache: a caller arriving at `get()`, an in-flight mint completing, and an
in-flight mint timing out. -/

/-- Modelled from the spec: what a waiting caller eventually observes —
either the minted credentials or a `TransientNetworkError` when the mint
timed out (spec.md section 5, Timeouts). -/
inductive MintOutcome where
  | creds (c : Credentials)
  | transientTimeout
deriving DecidableEq, Repr

/-- Modelled from the spec: the per-identity cache entry states of spec.md
section 4.3 (`EMPTY`, `MINTING`/`REFRESHING` with its queue of waiting
callers, `VALID`). -/
inductive CacheEntry where
  | empty
  | minting (waiters : List Nat)
  | valid (c : Credentials)
deriving DecidableEq, Repr

/-- Modelled from the spec: the shared cache state across identities —
entry and cumulative mint count per identity, and the outcome observed by
each caller (callers are numbered). -/
structure CacheSys where
  entry : String → CacheEntry
  mintCount : String → Nat
  result : Nat → Option MintOutcome

/-- Modelled from the spec: the atomic events of the cooperative
scheduler — a caller arrives at `get(ident)`, the in-flight mint for
`ident` completes with credentials, or it times out. -/
inductive CacheEvent where
  | arrive (ident : String) (caller : Nat)
  | complete (ident : String) (c : Credentials)
  | mintTimeout (ident : String)
deriving DecidableEq, Repr

/-- Delivers outcome `o` to every caller in `ws`, leaving others as
before. -/
def notifyAll (ws : List Nat) (o : MintOutcome) (r : Nat → Option MintOutcome) :
    Nat → Option MintOutcome :=
  fun k => if k ∈ ws then some o else r k

/-- Modelled from the spec: one atomic step of the token cache (spec.md
sections 4.3 and 5).  An arriving caller is served from a fresh `VALID`
entry; on `EMPTY` (or stale `VALID`) it starts the single mint and waits;
during `MINTING` it joins the waiters without issuing another mint.
Completion delivers the same credentials to every waiter; a timeout
releases every waiter with the transient error. -/
def cacheStep (now margin : Nat) (s : CacheSys) (e : CacheEvent) : CacheSys :=
  match e with
  | .arrive ident caller =>
    match s.entry ident with
    | .valid c =>
      if now + margin < c.expires_at then
        { s with result := fun k => if k = caller then some (.creds c) else s.result k }
      else
        { s with
          entry := fun j => if j = ident then .minting [caller] else s.entry j
          mintCount := fun j => if j = ident then s.mintCount j + 1 else s.mintCount j }
    | .empty =>
      { s with
        entry := fun j => if j = ident then .minting [caller] else s.entry j
        mintCount := fun j => if j = ident then s.mintCount j + 1 else s.mintCount j }
    | .minting ws =>
      { s with entry := fun j => if j = ident then .minting (caller :: ws) else s.entry j }
  | .complete ident c =>
    match s.entry ident with
    | .minting ws =>
      { s with
        entry := fun j => if j = ident then .valid c else s.entry j
        result := notifyAll ws (.creds c) s.result }
    | _ => s
  | .mintTimeout ident =>
    match s.entry ident with
    | .minting ws =>
      { s with
        entry := fun j => if j = ident then .empty else s.entry j
        result := notifyAll ws .transientTimeout s.result }
    | _ => s

/-- Folds a sequence of events through the cache. -/
def runCache (now margin : Nat) (s : CacheSys) (evs : List CacheEvent) : CacheSys :=
  evs.foldl (cacheStep now margin) s

/-- Identity an event concerns. -/
def CacheEvent.ident : CacheEvent → String
  | .arrive i _ => i
  | .complete i _ => i
  | .mintTimeout i => i

/-! ## Authenticated request client: 401 handling

Modelled from the spec: section 4.5 describes the Authenticated Request
Client (its source, `amazon_ads_mcp.server.mcp_server.AuthenticatedClient`,
is only imported by the debug scripts and is not part of the excerpt). -/

/-- Modelled from the spec: what the caller of the Authenticated Request
Client observes — a response with its HTTP status, or an `AuthError`
surfaced after two consecutive 401s. -/
inductive RequestOutcome where
  | success (status : Nat)
  | authFailure
deriving DecidableEq, Repr

/-- Modelled from the spec: the observable trace of one caller request —
outcome, number of upstream Ads API calls, number of token-endpoint
(mint) calls, and whether the cached credentials were invalidated. -/
structure SendTrace where
  outcome : RequestOutcome
  upstreamCalls : Nat
  tokenEndpointCalls : Nat
  invalidatedCreds : Bool
deriving DecidableEq, Repr

/-- Modelled from the spec: one caller request through the Authenticated
Request Client (spec.md section 4.5).  `upstream n` is the status of the
`n`-th upstream attempt.  A mint happens before the first attempt unless
a valid token is cached; a 401 invalidates the cached credentials and
triggers one fresh mint and exactly one retry; a second 401 is surfaced
as an `AuthError` with no further retry. -/
def authedRequest (upstream : Nat → Nat) (cacheHasValidToken : Bool) : SendTrace :=
  let initialMints := if cacheHasValidToken then 0 else 1
  let s1 := upstream 0
  if s1 = 401 then
    let s2 := upstream 1
    if s2 = 401 then ⟨.authFailure, 2, initialMints + 1, true⟩
    else ⟨.success s2, 2, initialMints + 1, true⟩
  else ⟨.success s1, 1, initialMints, false⟩

/-! ## Header injection

Modelled from the spec: section 4.5 requires the security-critical
headers to be treated as reserved — caller-supplied values under those
names are stripped before the values of the active identity are injected.  Header
mappings are ordered association lists of name/value pairs. -/

/-- Modelled from the spec: the reserved security-critical header names
(spec.md sections 4.5 and 6); the scope header is reserved when a
profile scope is established for the call. -/
def reservedHeaderNames (hasScope : Bool) : List String :=
  ["Authorization", "Amazon-Advertising-API-ClientId"] ++
    (if hasScope then ["Amazon-Advertising-API-Scope"] else [])

/-- Modelled from the spec: header injection of the Authenticated Request
Client (spec.md section 4.5).  Caller-supplied entries under a reserved
name are stripped, then `Authorization: Bearer <token>`, the client-id
header and (when established) the scope header are injected from the
credentials of the active identity. -/
def injectAuthHeaders (accessToken clientId : String) (scope : Option String)
    (callerHeaders : List (String × String)) : List (String × String) :=
  let stripped := callerHeaders.filter
    (fun kv => decide (kv.1 ∉ reservedHeaderNames scope.isSome))
  (("Authorization", "Bearer " ++ accessToken) ::
    ("Amazon-Advertising-API-ClientId", clientId) ::
    (match scope with
     | some p => [("Amazon-Advertising-API-Scope", p)]
     | none => [])) ++ stripped

/-- All values carried by header name `k` in the header list `hs`, in
order. -/
def headerValues (hs : List (String × String)) (k : String) : List String :=
  (hs.filter (fun kv => kv.1 = k)).map (fun kv => kv.2)

/-! ## Region / endpoint router -/

/-- Region codes of the Amazon Ads API (spec.md section 3, Region
Mapping). -/
inductive Region where
  | NA
  | EU
  | FE
deriving DecidableEq, Repr

/-- Regional base-URL table embedded from the `regional_endpoints` dict
in src/.build/scripts/debug/test_region_endpoints.py lines 34-47. -/
def regionalEndpointUrl : Region → String
  | .NA => "https://advertising-api.amazon.com"
  | .EU => "https://advertising-api-eu.amazon.com"
  | .FE => "https://advertising-api-fe.amazon.com"

/-- Modelled from the spec: the hardcoded default region (spec.md
section 4.4). -/
def defaultRegion : Region := Region.NA

/-- Parses the region code strings used by the region tools in the debug
scripts (e.g. `set_region_override("eu")`). -/
def parseRegion (s : String) : Option Region :=
  if lowerChars s = "na".toList then some Region.NA
  else if lowerChars s = "eu".toList then some Region.EU
  else if lowerChars s = "fe".toList then some Region.FE
  else none

/-- Modelled from the spec: region resolution of the Region Router
(spec.md section 4.4) — the override wins when set, else the
configured home region, else the hardcoded NA default. -/
def resolveRegion (identityHome : Option Region) (ovr : Option Region) : Region :=
  match ovr with
  | some r => r
  | none =>
    match identityHome with
    | some r => r
    | none => defaultRegion

/-- Modelled from the spec: `resolve(identity, override) -> {base_url, region}`
of spec.md section 4.4, with the base URL drawn from the embedded
regional table. -/
def resolve (identityHome : Option Region) (ovr : Option Region) : String × Region :=
  let r := resolveRegion identityHome ovr
  (regionalEndpointUrl r, r)

/-- Modelled from the spec: the session-scoped routing state holding the
optional region override (spec.md section 3, Active Routing State). -/
structure RoutingState where
  overrideRegion : Option Region
deriving DecidableEq, Repr

/-- Modelled from the spec: the `set_region_override` operation (spec.md
section 6); an unrecognized region code leaves the state unchanged. -/
def set_region_override (s : String) (st : RoutingState) : RoutingState :=
  match parseRegion s with
  | some r => ⟨some r⟩
  | none => st

/-- Modelled from the spec: the `clear_region_override` operation (spec.md
sections 4.4 and 6). -/
def clear_region_override (_st : RoutingState) : RoutingState := ⟨none⟩

/-- Modelled from the spec: the `show_routing_state` operation (spec.md
section 6) reporting the resolved host and region for the active
identity under the current override. -/
def show_routing_state (identityHome : Option Region) (st : RoutingState) :
    String × Region :=
  resolve identityHome st.overrideRegion

/-! ## HTTP client construction sites

The timeout configuration of the HTTP clients constructed by the
repository, embedded per construction site.  `constructorTimeoutSecs` is
the explicit timeout passed where the client is constructed;
`requestTimeoutSecs` is the explicit per-request timeout passed at the
request calls issued through that client; `issuesRequests` records
whether the code issues at least one HTTP request through the client. -/

/-- One HTTP client construction site in the code of the repository. -/
structure HttpClientSite where
  file : String
  line : Nat
  constructorTimeoutSecs : Option Nat
  requestTimeoutSecs : Option Nat
  issuesRequests : Bool
deriving DecidableEq, Repr

/-- HTTP client construction sites embedded from the source:
the persistent proxy client (src/src/amazon_ads_mcp/proxy/server.py
lines 93-96, `httpx.Timeout(30.0)`), the authenticated client of
src/.build/debug/test_auth_fix.py lines 49-53 (`timeout=30.0`), the two
token-endpoint clients of src/.build/scripts/debug/auth.py lines 124 and
155 (no timeout at construction or request), the client of
src/.build/debug/debug_headers.py line 52 (no constructor timeout,
`timeout=30.0` on the request at line 56), the regional test client of
src/.build/scripts/debug/test_region_endpoints.py line 61
(`timeout=10.0`), the identity-listing client of
src/.build/scripts/debug/test_openbridge.py line 24 (no timeout), and
the export client of src/.build/scripts/debug/export_all_data.py line
144 (`timeout=60.0`). -/
def httpClientSites : List HttpClientSite :=
  [⟨"src/amazon_ads_mcp/proxy/server.py", 93, some 30, none, true⟩,
   ⟨".build/debug/test_auth_fix.py", 49, some 30, none, true⟩,
   ⟨".build/scripts/debug/auth.py", 124, none, none, true⟩,
   ⟨".build/scripts/debug/auth.py", 155, none, none, true⟩,
   ⟨".build/debug/debug_headers.py", 52, none, some 30, true⟩,
   ⟨".build/scripts/debug/test_region_endpoints.py", 61, some 10, none, true⟩,
   ⟨".build/scripts/debug/test_openbridge.py", 24, none, none, true⟩,
   ⟨".build/scripts/debug/export_all_data.py", 144, some 60, none, true⟩]

/-- The statement of the timeout claim over the embedded construction
sites: every request-issuing client is constructed with an explicit
timeout, and that timeout is 30 seconds. -/
def everyClientHasExplicit30sTimeout : Prop :=
  ∀ s ∈ httpClientSites, s.issuesRequests = true → s.constructorTimeoutSecs = some 30

instance : Decidable everyClientHasExplicit30sTimeout := by
  unfold everyClientHasExplicit30sTimeout
  infer_instance

/-! ## Theorems -/

theorem truncationTail_length : truncationTail.length = 3 := rfl

theorem truncate_text_of_le (s : List Char) (max_len : Int)
    (h : (s.length : Int) ≤ max_len) :
    truncate_text (some s) max_len = some s := by
  simp [truncate_text, h]

theorem truncate_text_of_lt (s : List Char) (max_len : Int)
    (h : max_len < (s.length : Int)) :
    truncate_text (some s) max_len
      = some (s.take (max 0 (max_len - 3)).toNat ++ truncationTail) := by
  have h2 : ¬ (s.length : Int) ≤ max_len := by omega
  simp [truncate_text, h2, truncationTail_length]

theorem truncate_result_length (s : List Char) (max_len : Int)
    (h3 : 3 ≤ max_len) (h : max_len < (s.length : Int)) :
    ((s.take (max 0 (max_len - 3)).toNat ++ truncationTail).length : Int) = max_len := by
  have hm : max 0 (max_len - 3) = max_len - 3 := by omega
  simp only [List.length_append, List.length_take, truncationTail_length, hm]
  have hmin : min (max_len - 3).toNat s.length = (max_len - 3).toNat := by omega
  rw [hmin]
  omega

/-- C9: `truncate_text` returns the text unchanged when its length is at
most `max_len`; otherwise (for `max_len ≥ 3`) it returns a string of
length exactly `max_len` ending in the 3-character ellipsis
marker; it is idempotent at fixed `max_len ≥ 3`; the non-string input
`None` is returned unchanged; and for `max_len < 3` the truncated result
is the 3-character marker itself, exceeding `max_len`. -/
theorem truncate_text_spec (s : List Char) (t : Option (List Char)) (max_len : Int) :
    truncate_text none max_len = none ∧
    ((s.length : Int) ≤ max_len → truncate_text (some s) max_len = some s) ∧
    (3 ≤ max_len → max_len < (s.length : Int) →
      ∃ r, truncate_text (some s) max_len = some r ∧ (r.length : Int) = max_len ∧
        ∃ p, r = p ++ truncationTail) ∧
    (3 ≤ max_len → truncate_text (truncate_text t max_len) max_len = truncate_text t max_len) ∧
    (max_len < 3 → max_len < (s.length : Int) →
      ∃ r, truncate_text (some s) max_len = some r ∧ r.length = 3) := by
  refine ⟨rfl, ?_, ?_, ?_, ?_⟩
  · intro h
    simp [truncate_text, h]
  · intro h3 hlt
    refine ⟨s.take (max 0 (max_len - 3)).toNat ++ truncationTail,
      truncate_text_of_lt s max_len hlt, truncate_result_length s max_len h3 hlt, _, rfl⟩
  · intro h3
    match t with
    | none => rfl
    | some u =>
      by_cases hu : (u.length : Int) ≤ max_len
      · simp [truncate_text, hu]
      · have hlt : max_len < (u.length : Int) := by omega
        rw [truncate_text_of_lt u max_len hlt]
        have hlen := truncate_result_length u max_len h3 hlt
        rw [truncate_text_of_le _ _ hlen.le]
  · intro h3 hlt
    have hm : max 0 (max_len - 3) = 0 := by omega
    refine ⟨s.take (max 0 (max_len - 3)).toNat ++ truncationTail,
      truncate_text_of_lt s max_len hlt, ?_⟩
    simp [hm, truncationTail_length]

/-- Witness for C9 at a concrete input: a 6-character text truncated at
`max_len = 5` keeps length 5 and ends in the marker, and truncation is
idempotent there. -/
theorem truncate_text_spec_witness :
    ((3 : Int) ≤ 5 ∧ (5 : Int) < (("abcdef".toList.length : Nat) : Int)) ∧
    (∃ r, truncate_text (some "abcdef".toList) 5 = some r ∧ (r.length : Int) = 5 ∧
      ∃ p, r = p ++ truncationTail) ∧
    truncate_text (truncate_text (some "abcdef".toList) 5) 5
      = truncate_text (some "abcdef".toList) 5 :=
  ⟨⟨by decide, by decide⟩,
    (truncate_text_spec "abcdef".toList (some "abcdef".toList) 5).2.2.1
      (by decide) (by decide),
    (truncate_text_spec "abcdef".toList (some "abcdef".toList) 5).2.2.2.1 (by decide)⟩

/-- C10: `SessionStore.get_session` returns `None` for an absent id; an
entry whose age strictly exceeds `max_age` yields `None` and is deleted;
any returned session has `last_accessed` refreshed to the lookup time and
is not expired; and an entry whose age equals `max_age` exactly is not
expired and is returned (the comparison is strict). -/
theorem session_store_get_spec (st : SessionStore) (now : Int) (sid : String) :
    (st.sessions sid = none → st.get_session now sid = (none, st)) ∧
    (∀ s, st.sessions sid = some s → st.max_age < now - s.last_accessed →
      (st.get_session now sid).1 = none ∧
      ((st.get_session now sid).2).sessions sid = none) ∧
    (∀ r st2, st.get_session now sid = (some r, st2) →
      r.last_accessed = now ∧ (0 ≤ st.max_age → r.is_expired now st.max_age = false)) ∧
    (∀ s, st.sessions sid = some s → now - s.last_accessed = st.max_age →
      (st.get_session now sid).1 = some (s.refresh now) ∧
      ((st.get_session now sid).2).sessions sid = some (s.refresh now)) := by
  refine ⟨?_, ?_, ?_, ?_⟩
  · intro h
    simp [SessionStore.get_session, h]
  · intro s hs hage
    have hexp : s.is_expired now st.max_age = true := by
      simp [SessionData.is_expired]
      omega
    simp [SessionStore.get_session, hs, hexp]
  · intro r st2 hr
    rcases hcase : st.sessions sid with _ | s
    · simp [SessionStore.get_session, hcase] at hr
    · by_cases hexp : s.is_expired now st.max_age
      · simp [SessionStore.get_session, hcase, hexp] at hr
      · simp [SessionStore.get_session, hcase, hexp] at hr
        constructor
        · rw [← hr.1]
          rfl
        · intro hnn
          rw [← hr.1]
          simp [SessionData.is_expired, SessionData.refresh]
          omega
  · intro s hs hage
    have hexp : s.is_expired now st.max_age = false := by
      simp [SessionData.is_expired]
      omega
    simp [SessionStore.get_session, hs, hexp]

/-- Witness for C10 at a concrete input: a stored session of age exactly
`max_age = 10` is returned refreshed, and a session of age 11 is deleted. -/
theorem session_store_get_spec_witness :
    (({ sessions := fun k => if k = "sid" then some ⟨"sid", 0, 90⟩ else none,
        max_age := 10 } : SessionStore).get_session 100 "sid").1
      = some ⟨"sid", 0, 100⟩ ∧
    (({ sessions := fun k => if k = "sid" then some ⟨"sid", 0, 89⟩ else none,
        max_age := 10 } : SessionStore).get_session 100 "sid").1 = none :=
  ⟨((session_store_get_spec
      { sessions := fun k => if k = "sid" then some ⟨"sid", 0, 90⟩ else none,
        max_age := 10 } 100 "sid").2.2.2 ⟨"sid", 0, 90⟩ (by decide) (by decide)).1,
   ((session_store_get_spec
      { sessions := fun k => if k = "sid" then some ⟨"sid", 0, 89⟩ else none,
        max_age := 10 } 100 "sid").2.1 ⟨"sid", 0, 89⟩ (by decide) (by decide)).1⟩

/-- C7 counterexample: `log_session_event` writes its keyword arguments
verbatim, so a kwarg named `token` whose two values agree on the first 8
characters and differ beyond the preview yields two different emitted
messages, and the full secret value occurs inside the message as sent. -/
theorem log_session_event_leaks_token_value :
    logSessionEventMsg "created" (some "sess12345") [("token", "AAAAAAAAsecretONE")]
      ≠ logSessionEventMsg "created" (some "sess12345") [("token", "AAAAAAAAsecretTWO")] ∧
    containsSub "AAAAAAAAsecretONE"
      (logSessionEventMsg "created" (some "sess12345") [("token", "AAAAAAAAsecretONE")])
      = true := by
  exact ⟨by decide, by decide⟩

theorem maskIdPreview_eq_of_take8 {a b : String} (ha : 8 < a.length)
    (hb : 8 < b.length) (hab : a.take 8 = b.take 8) :
    maskIdPreview a = maskIdPreview b := by
  simp [maskIdPreview, ha, hb, hab]

theorem map_maskAuthValue_eq {kwA kwB : List (String × String)}
    (h : List.Forall₂ (fun x y : String × String =>
      x = y ∨ (x.1 = y.1 ∧ isSecretKey x.1 = true)) kwA kwB) :
    kwA.map (fun kv => kv.1 ++ "=" ++ maskAuthValue kv.1 kv.2)
      = kwB.map (fun kv => kv.1 ++ "=" ++ maskAuthValue kv.1 kv.2) := by
  induction h with
  | nil => rfl
  | cons hxy _ ih =>
    simp only [List.map_cons, ih]
    congr 1
    rcases hxy with rfl | ⟨hk, hsec⟩
    · rfl
    · have hsec2 : isSecretKey _ = true := hk ▸ hsec
      simp [maskAuthValue, hsec, hsec2, hk]

/-- C7 amended: in `log_auth_flow` the emitted message is unchanged when
secret-named keyword values change arbitrarily or the identity id changes
beyond its 8-character preview, and in `log_session_event` the same holds
for the session id; keyword arguments passed to `log_session_event`,
however, are written verbatim (see the counterexample), so the masking
guarantee covers `log_auth_flow` kwargs and the identity/session ids
only. -/
theorem auth_logging_masking (stage : String) (pt : Option String)
    (idA idB : Option String) (kwA kwB : List (String × String))
    (event : String) (sA sB : String) (kw : List (String × String))
    (hid : idA = idB ∨ ∃ a b, idA = some a ∧ idB = some b ∧
      8 < a.length ∧ 8 < b.length ∧ a.take 8 = b.take 8)
    (hkw : List.Forall₂ (fun x y : String × String =>
      x = y ∨ (x.1 = y.1 ∧ isSecretKey x.1 = true)) kwA kwB)
    (hsA : 8 < sA.length) (hsB : 8 < sB.length) (hs8 : sA.take 8 = sB.take 8) :
    logAuthFlowMsg stage idA pt kwA = logAuthFlowMsg stage idB pt kwB ∧
    logSessionEventMsg event (some sA) kw = logSessionEventMsg event (some sB) kw := by
  constructor
  · have hparts3 := map_maskAuthValue_eq hkw
    rcases hid with rfl | ⟨a, b, rfl, rfl, ha, hb, hab⟩
    · simp [logAuthFlowMsg, hparts3]
    · have hane : ¬ a = "" := by
        intro h
        subst h
        simp at ha
      have hbne : ¬ b = "" := by
        intro h
        subst h
        simp at hb
      simp [logAuthFlowMsg, hparts3, hane, hbne,
        maskIdPreview_eq_of_take8 ha hb hab]
  · have hane : ¬ sA = "" := by
      intro h
      subst h
      simp at hsA
    have hbne : ¬ sB = "" := by
      intro h
      subst h
      simp at hsB
    simp [logSessionEventMsg, hane, hbne, maskIdPreview_eq_of_take8 hsA hsB hs8]

/-- Witness for C7 amended at concrete inputs: two `log_auth_flow` runs
whose identity ids agree on the 8-character preview and whose
`refresh_token` values differ produce identical messages, and likewise
two `log_session_event` runs whose session ids agree on the preview. -/
theorem auth_logging_masking_witness :
    logAuthFlowMsg "token_request" (some "identityAAAA1") (some "openbridge")
        [("refresh_token", "secretvalue1")]
      = logAuthFlowMsg "token_request" (some "identityAAAA2") (some "openbridge")
        [("refresh_token", "secretvalue2")] ∧
    logSessionEventMsg "created" (some "sessionABCD1") [("ip", "192.168.1.1")]
      = logSessionEventMsg "created" (some "sessionABCD2") [("ip", "192.168.1.1")] :=
  auth_logging_masking "token_request" (some "openbridge")
    (some "identityAAAA1") (some "identityAAAA2")
    [("refresh_token", "secretvalue1")] [("refresh_token", "secretvalue2")]
    "created" "sessionABCD1" "sessionABCD2" [("ip", "192.168.1.1")]
    (Or.inr ⟨"identityAAAA1", "identityAAAA2", rfl, rfl, by decide, by decide, by decide⟩)
    (List.Forall₂.cons (Or.inr ⟨rfl, by decide⟩) List.Forall₂.nil)
    (by decide) (by decide) (by decide)

theorem tokenCacheGet_entry_of_ok (provider : Nat → Except MintError Credentials)
    (margin now : Nat) (st : CacheState) (c : Credentials) (st2 : CacheState) (n : Nat)
    (h : tokenCacheGet provider margin now st = (.ok c, st2, n)) :
    st2.entry = some c := by
  rcases hc : st.entry with _ | c0
  · rcases hp : provider now with e | c2
    · simp [tokenCacheGet, hc, hp] at h
    · simp [tokenCacheGet, hc, hp] at h
      obtain ⟨h1, h2, -⟩ := h
      subst h2
      exact congrArg some h1
  · by_cases hfr : now + margin < c0.expires_at
    · simp [tokenCacheGet, hc, hfr] at h
      obtain ⟨h1, h2, -⟩ := h
      subst h2
      rw [hc, h1]
    · rcases hp : provider now with e | c2
      · simp [tokenCacheGet, hc, hfr, hp] at h
      · simp [tokenCacheGet, hc, hfr, hp] at h
        obtain ⟨h1, h2, -⟩ := h
        subst h2
        exact congrArg some h1

/-- C1: the Token Cache operation `get` returns a fresh cached entry unchanged
(hence with an identical access token), otherwise mints through the
Credential Provider, stores the new credentials and returns them with a
strictly later expiry than the replaced entry; every successfully
returned credentials value expires strictly in the future, and a second
call within the safety margin returns the identical credentials. -/
theorem tokenCache_get_spec (provider : Nat → Except MintError Credentials)
    (margin now : Nat) (st : CacheState) (cNew : Credentials)
    (hmint : provider now = .ok cNew)
    (hfresh : now + margin < cNew.expires_at) :
    (∀ c, st.entry = some c → now + margin < c.expires_at →
      tokenCacheGet provider margin now st = (.ok c, st, 0)) ∧
    (∀ c, st.entry = some c → c.expires_at ≤ now + margin →
      tokenCacheGet provider margin now st = (.ok cNew, ⟨some cNew⟩, 1) ∧
      c.expires_at < cNew.expires_at) ∧
    (st.entry = none →
      tokenCacheGet provider margin now st = (.ok cNew, ⟨some cNew⟩, 1)) ∧
    (∀ c st2 n, tokenCacheGet provider margin now st = (.ok c, st2, n) →
      now < c.expires_at ∧ st2.entry = some c) ∧
    (∀ c st2 n now2, tokenCacheGet provider margin now st = (.ok c, st2, n) →
      now2 + margin < c.expires_at →
      (tokenCacheGet provider margin now2 st2).1 = .ok c) := by
  refine ⟨?_, ?_, ?_, ?_, ?_⟩
  · intro c hc hfr
    simp [tokenCacheGet, hc, hfr]
  · intro c hc hstale
    have hnfr : ¬ now + margin < c.expires_at := by omega
    exact ⟨by simp [tokenCacheGet, hc, hnfr, hmint], by omega⟩
  · intro h
    simp [tokenCacheGet, h, hmint]
  · intro c st2 n h
    refine ⟨?_, tokenCacheGet_entry_of_ok provider margin now st c st2 n h⟩
    rcases hc : st.entry with _ | c0
    · simp [tokenCacheGet, hc, hmint] at h
      rw [← h.1]
      omega
    · by_cases hfr : now + margin < c0.expires_at
      · simp [tokenCacheGet, hc, hfr] at h
        rw [← h.1]
        omega
      · simp [tokenCacheGet, hc, hfr, hmint] at h
        rw [← h.1]
        omega
  · intro c st2 n now2 h hfr2
    have he := tokenCacheGet_entry_of_ok provider margin now st c st2 n h
    simp [tokenCacheGet, he, hfr2]

/-- Witness for C1 at a concrete input: a stale cached token (expiry 1020
at time 1000 with margin 60) is replaced by the freshly minted one with a
strictly later expiry. -/
theorem tokenCache_get_spec_witness :
    ((fun t => (Except.ok (⟨"id1", "tok2", t + 3600⟩ : Credentials) :
        Except MintError Credentials)) 1000
        = Except.ok (⟨"id1", "tok2", 4600⟩ : Credentials)) ∧
    (1000 + 60 < 4600) ∧
    (tokenCacheGet
        (fun t => (Except.ok (⟨"id1", "tok2", t + 3600⟩ : Credentials) :
          Except MintError Credentials))
        60 1000 ⟨some ⟨"id1", "tok1", 1020⟩⟩
      = (.ok ⟨"id1", "tok2", 4600⟩, ⟨some ⟨"id1", "tok2", 4600⟩⟩, 1) ∧
      1020 < 4600) :=
  ⟨rfl, by decide,
    (tokenCache_get_spec
      (fun t => (Except.ok (⟨"id1", "tok2", t + 3600⟩ : Credentials) :
        Except MintError Credentials))
      60 1000 ⟨some ⟨"id1", "tok1", 1020⟩⟩ ⟨"id1", "tok2", 4600⟩ rfl (by decide)).2.1
      ⟨"id1", "tok1", 1020⟩ rfl (by decide)⟩

/-- C5: when the provider rejects the mint with an `AuthError` (upstream
4xx), `get` surfaces exactly that error, performs exactly one provider
call (no automatic retry), and leaves the cache entry exactly in its
previous state (or `EMPTY` when none existed). -/
theorem mint_failure_atomic (provider : Nat → Except MintError Credentials)
    (margin now : Nat) (st : CacheState) (status : Nat)
    (hfail : provider now = .error (.authError status))
    (hstale : ∀ c, st.entry = some c → c.expires_at ≤ now + margin) :
    tokenCacheGet provider margin now st = (.error (.authError status), st, 1) := by
  rcases hc : st.entry with _ | c0
  · simp [tokenCacheGet, hc, hfail]
  · have hnfr : ¬ now + margin < c0.expires_at := by
      have := hstale c0 hc
      omega
    simp [tokenCacheGet, hc, hnfr, hfail]

/-- Witness for C5 at a concrete input: an HTTP 400 mint failure on a
stale cache entry returns the `AuthError`, calls the provider once, and
leaves the entry untouched. -/
theorem mint_failure_atomic_witness :
    ((fun _ : Nat => (Except.error (.authError 400) : Except MintError Credentials)) 1000
        = Except.error (.authError 400)) ∧
    tokenCacheGet (fun _ => .error (.authError 400)) 60 1000
        ⟨some ⟨"id1", "tok1", 1020⟩⟩
      = (.error (.authError 400), ⟨some ⟨"id1", "tok1", 1020⟩⟩, 1) :=
  ⟨rfl,
    mint_failure_atomic (fun _ => .error (.authError 400)) 60 1000
      ⟨some ⟨"id1", "tok1", 1020⟩⟩ 400 rfl
      (by
        intro c hc
        simp at hc
        rw [← hc]
        decide)⟩

/-- C3: through the Authenticated Request Client the token endpoint is
called at most twice per caller request; a 401 upstream answer triggers
credential invalidation, one fresh mint and exactly one retry, so a
401-then-200 sequence yields a single successful 200 to the caller; a
second 401 surfaces as an `AuthError` after exactly two upstream calls
with no further retry; and a non-401 first answer is returned directly. -/
theorem authedRequest_retry_on_401 (upstream : Nat → Nat) (cached : Bool) :
    (authedRequest upstream cached).tokenEndpointCalls ≤ 2 ∧
    (upstream 0 = 401 → upstream 1 = 200 →
      authedRequest upstream cached
        = ⟨.success 200, 2, (if cached then 0 else 1) + 1, true⟩) ∧
    (upstream 0 = 401 → upstream 1 = 401 →
      authedRequest upstream cached
        = ⟨.authFailure, 2, (if cached then 0 else 1) + 1, true⟩) ∧
    (upstream 0 ≠ 401 →
      authedRequest upstream cached
        = ⟨.success (upstream 0), 1, (if cached then 0 else 1), false⟩) := by
  refine ⟨?_, ?_, ?_, ?_⟩
  · by_cases h1 : upstream 0 = 401 <;> by_cases h2 : upstream 1 = 401 <;>
      cases cached <;> simp [authedRequest, h1, h2]
  · intro h1 h2
    have h2ne : upstream 1 ≠ 401 := by omega
    simp [authedRequest, h1, h2, h2ne]
  · intro h1 h2
    simp [authedRequest, h1, h2]
  · intro h1
    simp [authedRequest, h1]

/-- Witness for C3 at a concrete input: upstream answers 401 then 200,
the caller observes a single successful 200, two upstream calls, two
token-endpoint calls, and the cached credentials were invalidated. -/
theorem authedRequest_retry_on_401_witness :
    ((fun n => if n = 0 then 401 else 200) 0 = 401) ∧
    ((fun n => if n = 0 then 401 else 200) 1 = 200) ∧
    authedRequest (fun n => if n = 0 then 401 else 200) true
      = ⟨.success 200, 2, (if true then 0 else 1) + 1, true⟩ :=
  ⟨rfl, rfl,
    (authedRequest_retry_on_401 (fun n => if n = 0 then 401 else 200) true).2.1
      rfl rfl⟩

theorem cacheStep_frame (now margin : Nat) (s : CacheSys) (e : CacheEvent)
    (j : String) (hj : j ≠ e.ident) :
    (cacheStep now margin s e).entry j = s.entry j ∧
    (cacheStep now margin s e).mintCount j = s.mintCount j := by
  cases e with
  | arrive i k =>
    simp only [CacheEvent.ident] at hj
    rcases hs : s.entry i with _ | ws | c
    · simp [cacheStep, hs, hj]
    · simp [cacheStep, hs, hj]
    · by_cases hf : now + margin < c.expires_at <;> simp [cacheStep, hs, hf, hj]
  | complete i c =>
    simp only [CacheEvent.ident] at hj
    rcases hs : s.entry i with _ | ws | c0 <;> simp [cacheStep, hs, hj]
  | mintTimeout i =>
    simp only [CacheEvent.ident] at hj
    rcases hs : s.entry i with _ | ws | c0 <;> simp [cacheStep, hs, hj]

theorem runCache_arrivals_minting (now margin : Nat) (ident : String) :
    ∀ (callers : List Nat) (s : CacheSys) (ws : List Nat),
      s.entry ident = .minting ws →
      (runCache now margin s (callers.map (CacheEvent.arrive ident))).entry ident
          = .minting (callers.reverse ++ ws) ∧
      (∀ j, j ≠ ident →
        (runCache now margin s (callers.map (CacheEvent.arrive ident))).entry j
          = s.entry j) ∧
      (runCache now margin s (callers.map (CacheEvent.arrive ident))).mintCount
          = s.mintCount ∧
      (runCache now margin s (callers.map (CacheEvent.arrive ident))).result
          = s.result := by
  intro callers
  induction callers with
  | nil =>
    intro s ws h
    exact ⟨by simpa [runCache] using h, fun j _ => rfl, rfl, rfl⟩
  | cons k rest ih =>
    intro s ws h
    have hstep : cacheStep now margin s (.arrive ident k)
        = { s with entry := fun j => if j = ident then .minting (k :: ws) else s.entry j } := by
      simp [cacheStep, h]
    have hrun : runCache now margin s ((k :: rest).map (CacheEvent.arrive ident))
        = runCache now margin (cacheStep now margin s (.arrive ident k))
            (rest.map (CacheEvent.arrive ident)) := rfl
    have hentry : (cacheStep now margin s (.arrive ident k)).entry ident
        = .minting (k :: ws) := by
      rw [hstep]
      simp
    obtain ⟨ih1, ih2, ih3, ih4⟩ :=
      ih (cacheStep now margin s (.arrive ident k)) (k :: ws) hentry
    refine ⟨?_, ?_, ?_, ?_⟩
    · rw [hrun, ih1]
      simp [List.append_assoc]
    · intro j hj
      rw [hrun, ih2 j hj, hstep]
      simp [hj]
    · rw [hrun, ih3, hstep]
    · rw [hrun, ih4, hstep]

theorem runCache_arrivals_empty (now margin : Nat) (ident : String)
    (k : Nat) (rest : List Nat) (s : CacheSys) (h : s.entry ident = .empty) :
    (runCache now margin s ((k :: rest).map (CacheEvent.arrive ident))).entry ident
        = .minting (rest.reverse ++ [k]) ∧
    (∀ j, j ≠ ident →
      (runCache now margin s ((k :: rest).map (CacheEvent.arrive ident))).entry j
        = s.entry j) ∧
    (runCache now margin s ((k :: rest).map (CacheEvent.arrive ident))).mintCount ident
        = s.mintCount ident + 1 ∧
    (∀ j, j ≠ ident →
      (runCache now margin s ((k :: rest).map (CacheEvent.arrive ident))).mintCount j
        = s.mintCount j) ∧
    (runCache now margin s ((k :: rest).map (CacheEvent.arrive ident))).result
        = s.result := by
  have hstep : cacheStep now margin s (.arrive ident k)
      = { s with
          entry := fun j => if j = ident then .minting [k] else s.entry j
          mintCount := fun j => if j = ident then s.mintCount j + 1 else s.mintCount j } := by
    simp [cacheStep, h]
  have hrun : runCache now margin s ((k :: rest).map (CacheEvent.arrive ident))
      = runCache now margin (cacheStep now margin s (.arrive ident k))
          (rest.map (CacheEvent.arrive ident)) := rfl
  have hentry : (cacheStep now margin s (.arrive ident k)).entry ident
      = .minting [k] := by
    rw [hstep]
    simp
  obtain ⟨ih1, ih2, ih3, ih4⟩ :=
    runCache_arrivals_minting now margin ident rest
      (cacheStep now margin s (.arrive ident k)) [k] hentry
  refine ⟨?_, ?_, ?_, ?_, ?_⟩
  · rw [hrun, ih1]
  · intro j hj
    rw [hrun, ih2 j hj, hstep]
    simp [hj]
  · rw [hrun, ih3, hstep]
    simp
  · intro j hj
    rw [hrun, ih3, hstep]
    simp [hj]
  · rw [hrun, ih4, hstep]

theorem cacheStep_complete_eq (now margin : Nat) (s : CacheSys) (i : String)
    (c : Credentials) (ws : List Nat) (h : s.entry i = .minting ws) :
    cacheStep now margin s (.complete i c)
      = { s with
          entry := fun j => if j = i then .valid c else s.entry j
          result := notifyAll ws (.creds c) s.result } := by
  simp [cacheStep, h]

theorem cacheStep_mintTimeout_eq (now margin : Nat) (s : CacheSys) (i : String)
    (ws : List Nat) (h : s.entry i = .minting ws) :
    cacheStep now margin s (.mintTimeout i)
      = { s with
          entry := fun j => if j = i then .empty else s.entry j
          result := notifyAll ws .transientTimeout s.result } := by
  simp [cacheStep, h]

/-- C2: starting with no valid cache entry for an identity, any batch of
N ≥ 2 concurrent `get()` callers issues exactly one mint, and once the
in-flight mint completes every one of those callers observes the same
resulting credentials; callers arriving while a mint is already in flight
issue no additional mint and observe that same result; entries and mint
counts of all other identities are untouched. -/
theorem tokenCache_single_flight (now margin : Nat) (ident : String)
    (callers : List Nat) (s₀ : CacheSys) (c : Credentials)
    (hN : 2 ≤ callers.length) :
    (s₀.entry ident = .empty →
      (cacheStep now margin
          (runCache now margin s₀ (callers.map (CacheEvent.arrive ident)))
          (.complete ident c)).mintCount ident = s₀.mintCount ident + 1 ∧
      (∀ k ∈ callers,
        (cacheStep now margin
            (runCache now margin s₀ (callers.map (CacheEvent.arrive ident)))
            (.complete ident c)).result k = some (.creds c)) ∧
      (∀ j, j ≠ ident →
        (cacheStep now margin
            (runCache now margin s₀ (callers.map (CacheEvent.arrive ident)))
            (.complete ident c)).entry j = s₀.entry j ∧
        (cacheStep now margin
            (runCache now margin s₀ (callers.map (CacheEvent.arrive ident)))
            (.complete ident c)).mintCount j = s₀.mintCount j)) ∧
    (∀ ws, s₀.entry ident = .minting ws →
      (cacheStep now margin
          (runCache now margin s₀ (callers.map (CacheEvent.arrive ident)))
          (.complete ident c)).mintCount ident = s₀.mintCount ident ∧
      (∀ k, k ∈ callers ∨ k ∈ ws →
        (cacheStep now margin
            (runCache now margin s₀ (callers.map (CacheEvent.arrive ident)))
            (.complete ident c)).result k = some (.creds c))) := by
  constructor
  · intro h₀
    match callers, hN with
    | k :: rest, _ =>
      obtain ⟨h1, h2, h3, h4, h5⟩ :=
        runCache_arrivals_empty now margin ident k rest s₀ h₀
      have hcomp := cacheStep_complete_eq now margin
        (runCache now margin s₀ ((k :: rest).map (CacheEvent.arrive ident)))
        ident c (rest.reverse ++ [k]) h1
      refine ⟨?_, ?_, ?_⟩
      · rw [hcomp]
        exact h3
      · intro k2 hk2
        rw [hcomp]
        have hmem : k2 ∈ rest.reverse ++ [k] := by
          rcases List.mem_cons.mp hk2 with rfl | hr
          · simp
          · simp [hr]
        simp [notifyAll, hmem]
      · intro j hj
        rw [hcomp]
        exact ⟨by simpa [hj] using h2 j hj, h4 j hj⟩
  · intro ws h₀
    obtain ⟨h1, h2, h3, h4⟩ :=
      runCache_arrivals_minting now margin ident callers s₀ ws h₀
    have hcomp := cacheStep_complete_eq now margin
      (runCache now margin s₀ (callers.map (CacheEvent.arrive ident)))
      ident c (callers.reverse ++ ws) h1
    refine ⟨?_, ?_⟩
    · rw [hcomp]
      show (runCache now margin s₀
        (callers.map (CacheEvent.arrive ident))).mintCount ident = _
      rw [h3]
    · intro k2 hk2
      rw [hcomp]
      have hmem : k2 ∈ callers.reverse ++ ws := by
        rcases hk2 with hk2 | hk2
        · simp [hk2]
        · simp [hk2]
      simp [notifyAll, hmem]

/-- Witness for C2 at a concrete input: five concurrent callers on an
empty cache entry lead to exactly one mint, and caller 3 observes the
minted credentials after completion. -/
theorem tokenCache_single_flight_witness :
    (2 ≤ ([1, 2, 3, 4, 5] : List Nat).length) ∧
    (cacheStep 0 60
        (runCache 0 60
          ⟨fun _ => .empty, fun _ => 0, fun _ => none⟩
          ([1, 2, 3, 4, 5].map (CacheEvent.arrive "id1")))
        (.complete "id1" ⟨"id1", "tok", 100⟩)).mintCount "id1" = 0 + 1 ∧
    (cacheStep 0 60
        (runCache 0 60
          ⟨fun _ => .empty, fun _ => 0, fun _ => none⟩
          ([1, 2, 3, 4, 5].map (CacheEvent.arrive "id1")))
        (.complete "id1" ⟨"id1", "tok", 100⟩)).result 3
      = some (.creds ⟨"id1", "tok", 100⟩) :=
  ⟨by decide,
    ((tokenCache_single_flight 0 60 "id1" [1, 2, 3, 4, 5]
      ⟨fun _ => .empty, fun _ => 0, fun _ => none⟩
      ⟨"id1", "tok", 100⟩ (by decide)).1 rfl).1,
    ((tokenCache_single_flight 0 60 "id1" [1, 2, 3, 4, 5]
      ⟨fun _ => .empty, fun _ => 0, fun _ => none⟩
      ⟨"id1", "tok", 100⟩ (by decide)).1 rfl).2.1 3 (by decide)⟩

theorem headerValues_append (a b : List (String × String)) (k : String) :
    headerValues (a ++ b) k = headerValues a k ++ headerValues b k := by
  simp [headerValues]

theorem headerValues_stripped (l : List (String × String)) (R : List String)
    (k : String) (hk : k ∈ R) :
    headerValues (l.filter fun kv => decide (kv.1 ∉ R)) k = [] := by
  induction l with
  | nil => rfl
  | cons kv rest ih =>
    by_cases hmem : kv.1 ∈ R
    · simp [List.filter_cons, hmem]
      simpa using ih
    · have hne : ¬ kv.1 = k := fun h => hmem (h ▸ hk)
      simp [List.filter_cons, hmem, headerValues, hne]
      simpa [headerValues] using ih

/-- C4: after header injection the final outgoing request carries exactly
the injected `Authorization: Bearer <access_token>` value, exactly the
injected client-id header value, and — when a profile scope is
established — exactly the injected scope value, for every caller-supplied
header mapping: caller-supplied values under a reserved name are stripped
and never appear in the request as sent. -/
theorem inject_auth_headers_reserved (tok clientId : String) (scope : Option String)
    (caller : List (String × String)) :
    headerValues (injectAuthHeaders tok clientId scope caller) "Authorization"
      = ["Bearer " ++ tok] ∧
    headerValues (injectAuthHeaders tok clientId scope caller)
      "Amazon-Advertising-API-ClientId" = [clientId] ∧
    (∀ p, scope = some p →
      headerValues (injectAuthHeaders tok clientId scope caller)
        "Amazon-Advertising-API-Scope" = [p]) := by
  have hne1 : ¬ ("Amazon-Advertising-API-ClientId" : String) = "Authorization" := by decide
  have hne2 : ¬ ("Amazon-Advertising-API-Scope" : String) = "Authorization" := by decide
  have hne3 : ¬ ("Authorization" : String) = "Amazon-Advertising-API-ClientId" := by decide
  have hne4 : ¬ ("Amazon-Advertising-API-Scope" : String)
      = "Amazon-Advertising-API-ClientId" := by decide
  have hne5 : ¬ ("Authorization" : String) = "Amazon-Advertising-API-Scope" := by decide
  have hne6 : ¬ ("Amazon-Advertising-API-ClientId" : String)
      = "Amazon-Advertising-API-Scope" := by decide
  refine ⟨?_, ?_, ?_⟩
  · have hstr := headerValues_stripped caller
      (reservedHeaderNames scope.isSome) "Authorization" (by simp [reservedHeaderNames])
    cases scope <;>
      simp [injectAuthHeaders, headerValues_append, headerValues, hne1, hne2] <;>
      simpa [headerValues] using hstr
  · have hstr := headerValues_stripped caller
      (reservedHeaderNames scope.isSome) "Amazon-Advertising-API-ClientId"
      (by simp [reservedHeaderNames])
    cases scope <;>
      simp [injectAuthHeaders, headerValues_append, headerValues, hne3, hne4] <;>
      simpa [headerValues] using hstr
  · intro p hp
    subst hp
    have hstr := headerValues_stripped caller
      (reservedHeaderNames (some p).isSome) "Amazon-Advertising-API-Scope"
      (by simp [reservedHeaderNames])
    simp [injectAuthHeaders, headerValues_append, headerValues, hne5, hne6]
    simpa [headerValues] using hstr

/-- Witness for C4 at a concrete input: a caller-supplied
`Amazon-Advertising-API-ClientId` and `Authorization` collision is
stripped and only the injected values appear. -/
theorem inject_auth_headers_reserved_witness :
    headerValues (injectAuthHeaders "T0K" "CID" (some "P1")
        [("Amazon-Advertising-API-ClientId", "EVIL"), ("Authorization", "EVIL2"),
         ("Accept", "application/json")]) "Authorization" = ["Bearer " ++ "T0K"] ∧
    headerValues (injectAuthHeaders "T0K" "CID" (some "P1")
        [("Amazon-Advertising-API-ClientId", "EVIL"), ("Authorization", "EVIL2"),
         ("Accept", "application/json")]) "Amazon-Advertising-API-ClientId" = ["CID"] ∧
    headerValues (injectAuthHeaders "T0K" "CID" (some "P1")
        [("Amazon-Advertising-API-ClientId", "EVIL"), ("Authorization", "EVIL2"),
         ("Accept", "application/json")]) "Amazon-Advertising-API-Scope" = ["P1"] :=
  ⟨(inject_auth_headers_reserved "T0K" "CID" (some "P1")
      [("Amazon-Advertising-API-ClientId", "EVIL"), ("Authorization", "EVIL2"),
       ("Accept", "application/json")]).1,
   (inject_auth_headers_reserved "T0K" "CID" (some "P1")
      [("Amazon-Advertising-API-ClientId", "EVIL"), ("Authorization", "EVIL2"),
       ("Accept", "application/json")]).2.1,
   (inject_auth_headers_reserved "T0K" "CID" (some "P1")
      [("Amazon-Advertising-API-ClientId", "EVIL"), ("Authorization", "EVIL2"),
       ("Accept", "application/json")]).2.2 "P1" rfl⟩

/-- C6: the Region Router picks the override region when set, else the
home region of the identity, else the hardcoded NA default; the chosen region
maps through the static table to the three regional base URLs; setting
the override to `"eu"` makes `show_routing_state` report a host
containing `-eu` for every identity, and clearing the override reverts to
identity-default resolution. -/
theorem region_router_resolve_spec (identityHome : Option Region)
    (st : RoutingState) (r : Region) :
    resolveRegion identityHome (some r) = r ∧
    resolveRegion (some r) none = r ∧
    resolveRegion none none = Region.NA ∧
    regionalEndpointUrl Region.NA = "https://advertising-api.amazon.com" ∧
    regionalEndpointUrl Region.EU = "https://advertising-api-eu.amazon.com" ∧
    regionalEndpointUrl Region.FE = "https://advertising-api-fe.amazon.com" ∧
    containsSub "-eu"
      (show_routing_state identityHome (set_region_override "eu" st)).1 = true ∧
    show_routing_state identityHome (clear_region_override st)
      = resolve identityHome none := by
  have hset : set_region_override "eu" st = ⟨some Region.EU⟩ := by
    have hp : parseRegion "eu" = some Region.EU := by decide
    simp [set_region_override, hp]
  refine ⟨rfl, rfl, rfl, rfl, rfl, rfl, ?_, rfl⟩
  rw [hset]
  exact (by decide :
    containsSub "-eu" "https://advertising-api-eu.amazon.com" = true)

/-- C8 counterexample: the embedded table of HTTP client construction
sites contains a client that issues requests with no explicit timeout at
construction or request time (the token-endpoint client of
`.build/scripts/debug/auth.py`), and one constructed with a 10-second
timeout, so neither is every network call carrying an explicit timeout
nor is every request-issuing client constructed with a 30-second one. -/
theorem http_timeout_sites_counterexample :
    httpClientSites.get? 2
      = some ⟨".build/scripts/debug/auth.py", 124, none, none, true⟩ ∧
    httpClientSites.get? 5
      = some ⟨".build/scripts/debug/test_region_endpoints.py", 61, some 10, none, true⟩ ∧
    ¬ everyClientHasExplicit30sTimeout := by
  refine ⟨rfl, rfl, by decide⟩

/-- C8 amended: the persistent proxy client and the authenticated
client of the debug script are constructed with an explicit 30-second
timeout (several other debug clients are not, or use 10s/60s), and in the
modelled token cache a timed-out mint empties the entry and releases
every single-flight waiter with the transient network error instead of
leaving it waiting. -/
theorem http_timeout_amended (ident : String) (ws : List Nat)
    (now margin : Nat) (s : CacheSys) (hmint : s.entry ident = .minting ws) :
    ((httpClientSites.get? 0).map HttpClientSite.constructorTimeoutSecs
      = some (some 30)) ∧
    ((httpClientSites.get? 1).map HttpClientSite.constructorTimeoutSecs
      = some (some 30)) ∧
    (cacheStep now margin s (.mintTimeout ident)).entry ident = .empty ∧
    (∀ k ∈ ws, (cacheStep now margin s (.mintTimeout ident)).result k
      = some MintOutcome.transientTimeout) := by
  have hstep := cacheStep_mintTimeout_eq now margin s ident ws hmint
  refine ⟨rfl, rfl, ?_, ?_⟩
  · rw [hstep]
    simp
  · intro k hk
    rw [hstep]
    simp [notifyAll, hk]

/-- Witness for C8 amended at a concrete input: with two waiters on an
in-flight mint, the timeout event releases waiter 7 with the transient
error and empties the entry. -/
theorem http_timeout_amended_witness :
    ((⟨fun _ => .minting [7, 8], fun _ => 1, fun _ => none⟩ : CacheSys).entry "id1"
      = .minting [7, 8]) ∧
    (cacheStep 0 60 ⟨fun _ => .minting [7, 8], fun _ => 1, fun _ => none⟩
      (.mintTimeout "id1")).entry "id1" = .empty ∧
    (cacheStep 0 60 ⟨fun _ => .minting [7, 8], fun _ => 1, fun _ => none⟩
      (.mintTimeout "id1")).result 7 = some MintOutcome.transientTimeout :=
  ⟨rfl,
    (http_timeout_amended "id1" [7, 8] 0 60
      ⟨fun _ => .minting [7, 8], fun _ => 1, fun _ => none⟩ rfl).2.2.1,
    (http_timeout_amended "id1" [7, 8] 0 60
      ⟨fun _ => .minting [7, 8], fun _ => 1, fun _ => none⟩ rfl).2.2.2 7 (by decide)⟩

end AmazonAdsMcp
